import Mathlib

/-!
Verification of the MPT operation chip (`src/operations.rs`) and the
row-budget logic of `MptCircuitConfig::assign` (`src/mpt.rs`) of the
halo2-mpt repository, over a shallow embedding in Lean 4.

The Rust code is generic over a prime field `Fp: FieldExt`; the embedding
is generic over a `Field F`.  Witness assignment (`fill_heading`,
`fill_aux`) is modelled as the list of cells it writes into the region;
gates and lookup inputs are modelled as the field-valued polynomial
expressions the chip registers, evaluated at one row's cell values.
-/

namespace MptOps

/-- Modelled from the spec: the enumeration `HashType` comes from
`crate::serde` whose source file is not part of the provided sources.
The spec defines it as the enumeration
{Empty, Leaf, Middle, LeafExt, LeafExtFinal} describing a trie node's
structural role at one path position; discriminants are taken in the
spec's listed order. -/
inductive HashType
  | Empty
  | Leaf
  | Middle
  | LeafExt
  | LeafExtFinal
deriving DecidableEq, Repr

/-- Modelled from the spec: the enum discriminant of a `HashType`
(`HashType as u64` in the Rust code), in the spec's listed order. -/
def HashType.toNat : HashType → Nat
  | .Empty => 0
  | .Leaf => 1
  | .Middle => 2
  | .LeafExt => 3
  | .LeafExtFinal => 4

/-- The field element `Fp::from(HashType::Leaf as u64)` used by the
"is first" gate of `MPTOpChip::configure`. -/
def leafTypeConst (F : Type) [Field F] : F :=
  (HashType.toNat HashType.Leaf : F)

/-- `TYPEMAP.op` of `src/operations.rs`: the old-type/new-type pairing
table contents. -/
def typemapOp : List (HashType × HashType) :=
  [ (HashType.Empty, HashType.Leaf),
    (HashType.Leaf, HashType.Leaf),
    (HashType.Middle, HashType.Middle),
    (HashType.LeafExt, HashType.Middle),
    (HashType.LeafExtFinal, HashType.Middle) ]

/-- `TYPEMAP.trans` of `src/operations.rs`: the vertical
(previous-row-type, current-row-type) transition table contents. -/
def typemapTrans : List (HashType × HashType) :=
  [ (HashType.Middle, HashType.Middle),
    (HashType.Middle, HashType.Empty),
    (HashType.Middle, HashType.Leaf),
    (HashType.Middle, HashType.LeafExt),
    (HashType.Middle, HashType.LeafExtFinal),
    (HashType.LeafExt, HashType.LeafExt),
    (HashType.LeafExt, HashType.LeafExtFinal),
    (HashType.LeafExtFinal, HashType.Leaf),
    (HashType.LeafExtFinal, HashType.Empty) ]

/-- The cells `MPTOpChip::load` writes into the trans (vertical
transition) lookup table: per table row the offset and the pair of
field-encoded hash types `(cur, next)`. -/
def loadTransCells (F : Type) [Field F] : List (Nat × F × F) :=
  typemapTrans.enum.map fun p =>
    (p.1, ((p.2.1).toNat : F), ((p.2.2).toNat : F))

/-- The cells `MPTOpChip::load` writes into the op (old-type/new-type
pairing) lookup table: per table row the offset and the pair of
field-encoded hash types `(old, new)`. -/
def loadTypeCells (F : Type) [Field F] : List (Nat × F × F) :=
  typemapOp.enum.map fun p =>
    (p.1, ((p.2.1).toNat : F), ((p.2.2).toNat : F))

/-- The spec's wording of the type-pairing table
{Empty→Leaf, Leaf→Leaf, Middle→Middle, LeafExt→Middle,
LeafExtFinal→Middle}, written down independently of `TYPEMAP` for the
refinement comparison of claim C3. -/
def specTypePairs : List (HashType × HashType) :=
  [ (HashType.Empty, HashType.Leaf),
    (HashType.Leaf, HashType.Leaf),
    (HashType.Middle, HashType.Middle),
    (HashType.LeafExt, HashType.Middle),
    (HashType.LeafExtFinal, HashType.Middle) ]

/-- The spec's wording of the vertical-transition table
{Middle→Middle, Middle→Empty, Middle→Leaf, Middle→LeafExt,
Middle→LeafExtFinal, LeafExt→LeafExt, LeafExt→LeafExtFinal,
LeafExtFinal→Leaf, LeafExtFinal→Empty}, written down independently of
`TYPEMAP` for the refinement comparison of claim C3. -/
def specAdjacentPairs : List (HashType × HashType) :=
  [ (HashType.Middle, HashType.Middle),
    (HashType.Middle, HashType.Empty),
    (HashType.Middle, HashType.Leaf),
    (HashType.Middle, HashType.LeafExt),
    (HashType.Middle, HashType.LeafExtFinal),
    (HashType.LeafExt, HashType.LeafExt),
    (HashType.LeafExt, HashType.LeafExtFinal),
    (HashType.LeafExtFinal, HashType.Leaf),
    (HashType.LeafExtFinal, HashType.Empty) ]

/-! ### Gate polynomials of `MPTOpChip::configure`

Each gate is the list of polynomial expressions the chip hands to
`meta.create_gate`, evaluated at one row: `sel` is the row selector,
primed/`next`/`prev` values are the neighbouring rows' cells. -/

/-- The "is first" gate: `[sel * (1 - is_first_next) * is_first_next,
sel * is_first_next * (new_hash_type - Leaf)]` where `is_first_next` is
the next row's `is_first` cell. -/
def isFirstGates {F : Type} [Field F]
    (sel is_first_next new_hash_type : F) : F × F :=
  ( sel * ((1 - is_first_next) * is_first_next),
    sel * (is_first_next * (new_hash_type - leafTypeConst F)) )

/-- The "calc key" gate: with `key_cur = path * depth_aux - key_aux`,
the two constraints `sel * is_first * key_cur` and
`sel * (1 - is_first) * (key_aux_prev + key_cur)`. -/
def calcKeyGates {F : Type} [Field F]
    (sel is_first path depth_aux key_aux key_aux_prev : F) : F × F :=
  ( sel * (is_first * (path * depth_aux - key_aux)),
    sel * ((1 - is_first) * (key_aux_prev + (path * depth_aux - key_aux))) )

/-- The "op continue" gate: `sel * is_first * (old_hash - root_aux_prev)`
where `root_aux_prev` is the previous row's `root_aux` cell. -/
def opContinueGate {F : Type} [Field F]
    (sel is_first old_hash root_aux_prev : F) : F :=
  sel * is_first * (old_hash - root_aux_prev)

/-- The input tuple of the "transition - old" lookup: the border factor
`1 - is_first` times the previous and current rows' `old_hash_type`
cells, in table order `(prev, cur)`. -/
def oldTransLookupInput {F : Type} [Field F]
    (is_first old_type_prev old_type_cur : F) : F × F :=
  ((1 - is_first) * old_type_prev, (1 - is_first) * old_type_cur)

/-- The input tuple of the "transition - new" lookup: the border factor
`1 - is_first` times the previous and current rows' `new_hash_type`
cells, in table order `(prev, cur)`. -/
def newTransLookupInput {F : Type} [Field F]
    (is_first new_type_prev new_type_cur : F) : F × F :=
  ((1 - is_first) * new_type_prev, (1 - is_first) * new_type_cur)

/-! ### Witness assignment of `MPTOpChip` as region writes -/

/-- The four advice columns `MPTOpChip` itself assigns. -/
inductive AuxCol
  | isFirst
  | rootAux
  | depthAux
  | keyAux
deriving DecidableEq, Repr

/-- One `assign_advice` call: its annotation label, target column and
row, the value written, and whether it was an
`assign_advice_from_constant` call (pinned to a circuit constant). -/
structure RegionWrite (F : Type) where
  label : String
  col : AuxCol
  row : Nat
  value : F
  pinned : Bool
deriving DecidableEq, Repr

/-- The value a region cell `(c, r)` holds after a list of writes: each
cell below is written at most once, so the first matching write is the
cell's value. -/
def regionValue {F : Type} (ws : List (RegionWrite F)) (c : AuxCol) (r : Nat) :
    Option F :=
  (ws.find? fun w => decide (w.col = c ∧ w.row = r)).map fun w => w.value

/-- `MPTOpChip::fill_heading`: the writes of the head row (row 0) plus
the constant-pinned `is_first` cell of row 1, with the source's
annotation labels. -/
def fillHeading {F : Type} [Field F] (old_hash : F) : List (RegionWrite F) :=
  [ ⟨"depth padding", AuxCol.keyAux, 0, 0, false⟩,
    ⟨"key padding", AuxCol.depthAux, 0, 0, false⟩,
    ⟨"root padding", AuxCol.rootAux, 0, old_hash, false⟩,
    ⟨"is_first padding", AuxCol.isFirst, 0, 1, false⟩,
    ⟨"top of is_first", AuxCol.isFirst, 1, 1, true⟩ ]

/-- The loop body of `MPTOpChip::fill_aux`, walking the zipped
`((hash_type, hash), path)` triples while tracking
`cur_root`, `cur_depth`, `acc_key` and `is_first_col` exactly as the
Rust loop does; emits the four `assign_advice` writes of each
iteration. -/
def fillAuxLoop {F : Type} [Field F] :
    Nat → F → F → F → Bool → List ((HashType × F) × F) → List (RegionWrite F)
  | _, _, _, _, _, [] => []
  | index, cur_root, cur_depth, acc_key, is_first_col, ((t, h), p) :: rest =>
    let cur_root2 := if is_first_col then h else cur_root
    let cur_depth2 := if is_first_col then 1 else 2 * cur_depth
    let acc_key2 := p * cur_depth2 + (if is_first_col then 0 else acc_key)
    ⟨"is_first", AuxCol.isFirst, index + 1,
      if t = HashType.Leaf then 1 else 0, false⟩ ::
    ⟨"root", AuxCol.rootAux, index, cur_root2, false⟩ ::
    ⟨"depth", AuxCol.depthAux, index, cur_depth2, false⟩ ::
    ⟨"key", AuxCol.keyAux, index, acc_key2, false⟩ ::
    fillAuxLoop (index + 1) cur_root2 cur_depth2 acc_key2
      (decide (t = HashType.Leaf)) rest

/-- The writes performed by the loop of `MPTOpChip::fill_aux` on
well-formed inputs: iteration runs over
`new_hash_types.iter().zip(hash.iter()).zip(path.iter())` starting at
`offset`, with `cur_root = cur_depth = acc_key = 0` and
`is_first_col = true`. -/
def fillAuxWrites {F : Type} [Field F] (offset : Nat)
    (new_hash_types : List HashType) (hash path : List F) :
    List (RegionWrite F) :=
  fillAuxLoop offset 0 0 0 true ((new_hash_types.zip hash).zip path)

/-- Why `MPTOpChip::fill_aux` panics: `assert_eq!(new_hash_types.len(),
hash.len())` (no custom message), or `assert!(hash.len() > 0, "input
must not empty")`, checked in that order. -/
inductive PanicReason
  | lenMismatch
  | emptyInput
deriving DecidableEq, Repr

/-- The outcome of `MPTOpChip::fill_aux`: a panic before any write, or
the region writes together with the returned row count `hash.len()`. -/
inductive FillResult (F : Type)
  | panic (reason : PanicReason)
  | ok (writes : List (RegionWrite F)) (ret : Nat)
deriving DecidableEq, Repr

/-- Whether a `FillResult` is a panic. -/
def FillResult.isPanic {F : Type} : FillResult F → Bool
  | .panic _ => true
  | .ok _ _ => false

/-- `MPTOpChip::fill_aux`: the two leading assertions, then the
assignment loop; returns `hash.len()`. -/
def fillAux {F : Type} [Field F] (offset : Nat)
    (new_hash_types : List HashType) (hash path : List F) : FillResult F :=
  if new_hash_types.length ≠ hash.length then .panic .lenMismatch
  else if hash.length = 0 then .panic .emptyInput
  else .ok (fillAuxWrites offset new_hash_types hash path) hash.length

/-- The `(row, value)` pairs of the writes into the `key_aux` column,
in write order. -/
def keyWrites {F : Type} (ws : List (RegionWrite F)) : List (Nat × F) :=
  ws.filterMap fun w =>
    if w.col = AuxCol.keyAux then some (w.row, w.value) else none

/-- Placeholder triple used as the `getD` default on the zipped
`((hash_type, hash), path)` input list. -/
def zDefault (F : Type) [Field F] : (HashType × F) × F :=
  ((HashType.Empty, 0), 0)

/-! ### `MptCircuitConfig::assign` row-budget logic (`src/mpt.rs`) -/

/-- The end of `MptCircuitConfig::assign`: panic or the padded rows. -/
inductive AssignTail
  | panic
  | ok (padding_rows : List Nat)
deriving DecidableEq, Repr

/-- The tail of `MptCircuitConfig::assign` after the sub-gadget
assignments: `assert!(n_assigned_rows <= n_rows, ...)`, then padding
rows at every offset in `1 + n_assigned_rows..n_rows`.  The value
`n_assigned_rows` returned by `mpt_update.assign` is taken as an input
here: `gadgets/mpt_update.rs` is not part of the provided sources, and
the claim quantifies over it directly. -/
def mptAssignTail (n_assigned_rows n_rows : Nat) : AssignTail :=
  if n_assigned_rows ≤ n_rows then
    .ok (List.range' (1 + n_assigned_rows) (n_rows - (1 + n_assigned_rows)))
  else .panic

/-- The "op continue" gate evaluated at the boundary row of each
operation of a batch: operation `i` (for `i ≥ 1`) starts at a
selector-active row with `is_first = 1`, its `old_hash` cell holding
the operation's old root `olds[i]`, and the previous row's `root_aux`
cell holding the previous operation's new root `news[i-1]` (the root
aux gate holds `root_aux` constant through a run at the run's first
`new_hash`). -/
def boundaryGates {F : Type} [Field F] (olds news : List F) : List F :=
  (olds.tail.zip news).map fun p => opContinueGate 1 1 p.1 p.2

/-- The concrete prime field used to instantiate witnesses. -/
instance : Fact (Nat.Prime 13) := ⟨by norm_num⟩

/-! ### Claim theorems -/

/-- C2: the "calc key" gate's two polynomial constraints
`sel * is_first * (path*depth_aux - key_aux)` and
`sel * (1 - is_first) * (key_aux_prev + path*depth_aux - key_aux)` both
vanish on a selector-active row with boolean `is_first` exactly when:
if `is_first = 1` then `key_aux = path * depth_aux`, and if
`is_first = 0` then `key_aux = key_aux_prev + path * depth_aux`. -/
theorem c2_calc_key_gate (F : Type) [Field F]
    (sel is_first path depth_aux key_aux key_aux_prev : F)
    (hsel : sel = 1) (hb : is_first = 0 ∨ is_first = 1) :
    ((calcKeyGates sel is_first path depth_aux key_aux key_aux_prev).1 = 0
      ∧ (calcKeyGates sel is_first path depth_aux key_aux key_aux_prev).2 = 0)
    ↔ ((is_first = 1 → key_aux = path * depth_aux)
        ∧ (is_first = 0 → key_aux = key_aux_prev + path * depth_aux)) := by
  subst hsel
  simp only [calcKeyGates]
  rcases hb with rfl | rfl
  · constructor
    · rintro ⟨-, h2⟩
      exact ⟨fun h0 => absurd h0.symm one_ne_zero,
        fun _ => by linear_combination -h2⟩
    · rintro ⟨-, h⟩
      exact ⟨by ring, by linear_combination -(h rfl)⟩
  · constructor
    · rintro ⟨h1, -⟩
      exact ⟨fun _ => by linear_combination -h1,
        fun h0 => absurd h0 one_ne_zero⟩
    · rintro ⟨h, -⟩
      exact ⟨by linear_combination -(h rfl), by ring⟩

/-- C2 witness: the gate characterization at the concrete active row
`sel = 1, is_first = 1, path = 3, depth_aux = 2, key_aux = 6,
key_aux_prev = 9` over `ZMod 13`. -/
theorem c2_calc_key_gate_witness :
    ((calcKeyGates (1 : ZMod 13) 1 3 2 6 9).1 = 0
      ∧ (calcKeyGates (1 : ZMod 13) 1 3 2 6 9).2 = 0)
    ↔ (((1 : ZMod 13) = 1 → (6 : ZMod 13) = 3 * 2)
        ∧ ((1 : ZMod 13) = 0 → (6 : ZMod 13) = 9 + 3 * 2)) :=
  c2_calc_key_gate (ZMod 13) 1 1 3 2 6 9 rfl (Or.inr rfl)

/-- C3: the two fixed lookup tables written once by `MPTOpChip::load`
hold exactly the spec's five type-pairing pairs and nine
vertical-transition pairs, each hash type encoded as its discriminant
as a field element, at table offsets `0..n-1`, and nothing else. -/
theorem c3_fixed_tables (F : Type) [Field F] :
    loadTypeCells F
      = specTypePairs.enum.map
          (fun p => (p.1, ((p.2.1).toNat : F), ((p.2.2).toNat : F)))
    ∧ loadTransCells F
      = specAdjacentPairs.enum.map
          (fun p => (p.1, ((p.2.1).toNat : F), ((p.2.2).toNat : F)))
    ∧ (loadTypeCells F).map Prod.fst = List.range 5
    ∧ (loadTransCells F).map Prod.fst = List.range 9 := by
  refine ⟨rfl, rfl, ?_, ?_⟩ <;> rfl

/-- C3 witness: the table contents at the concrete field `ZMod 13`. -/
theorem c3_fixed_tables_witness :
    loadTypeCells (ZMod 13)
      = specTypePairs.enum.map
          (fun p => (p.1, ((p.2.1).toNat : ZMod 13), ((p.2.2).toNat : ZMod 13)))
    ∧ loadTransCells (ZMod 13)
      = specAdjacentPairs.enum.map
          (fun p => (p.1, ((p.2.1).toNat : ZMod 13), ((p.2.2).toNat : ZMod 13)))
    ∧ (loadTypeCells (ZMod 13)).map Prod.fst = List.range 5
    ∧ (loadTransCells (ZMod 13)).map Prod.fst = List.range 9 :=
  c3_fixed_tables (ZMod 13)

/-- C4: on a selector-active row the "is first" gate's constraints
`sel * (1 - is_first_next) * is_first_next` and
`sel * is_first_next * (new_hash_type - Leaf)` vanish exactly when the
next row's `is_first` is boolean and, if it is 1, the current row's new
hash type equals the Leaf constant: a boundary row may only follow a
leaf row. -/
theorem c4_is_first_gate (F : Type) [Field F]
    (sel is_first_next new_hash_type : F) (hsel : sel = 1) :
    ((isFirstGates sel is_first_next new_hash_type).1 = 0
      ∧ (isFirstGates sel is_first_next new_hash_type).2 = 0)
    ↔ ((is_first_next = 0 ∨ is_first_next = 1)
        ∧ (is_first_next = 1 → new_hash_type = leafTypeConst F)) := by
  subst hsel
  simp only [isFirstGates, one_mul]
  constructor
  · rintro ⟨h1, h2⟩
    refine ⟨?_, ?_⟩
    · rcases mul_eq_zero.mp h1 with h | h
      · right; exact (sub_eq_zero.mp h).symm
      · left; exact h
    · rintro rfl
      rcases mul_eq_zero.mp h2 with h | h
      · exact absurd h one_ne_zero
      · exact sub_eq_zero.mp h
  · rintro ⟨hb, himp⟩
    rcases hb with rfl | rfl
    · exact ⟨by ring, by ring⟩
    · exact ⟨by ring, by rw [himp rfl]; ring⟩

/-- C4 witness: the gate characterization at the concrete active row
`sel = 1, is_first_next = 1, new_hash_type = 1` over `ZMod 13`. -/
theorem c4_is_first_gate_witness :
    ((isFirstGates (1 : ZMod 13) 1 1).1 = 0
      ∧ (isFirstGates (1 : ZMod 13) 1 1).2 = 0)
    ↔ (((1 : ZMod 13) = 0 ∨ (1 : ZMod 13) = 1)
        ∧ ((1 : ZMod 13) = 1 → (1 : ZMod 13) = leafTypeConst (ZMod 13))) :=
  c4_is_first_gate (ZMod 13) 1 1 1 rfl

/-- C6: the two vertical-transition lookups scale the previous and
current rows' hash-type cells by the same border factor
`1 - is_first`: a row with `is_first = 1` contributes the zero tuple
`(0, 0)` whatever the types are, and a row with `is_first = 0`
contributes exactly `(prev-row type, current-row type)`. -/
theorem c6_border_masked_lookups (F : Type) [Field F]
    (is_first old_type_prev old_type_cur new_type_prev new_type_cur : F) :
    (is_first = 1 →
      oldTransLookupInput is_first old_type_prev old_type_cur = (0, 0)
      ∧ newTransLookupInput is_first new_type_prev new_type_cur = (0, 0))
    ∧ (is_first = 0 →
      oldTransLookupInput is_first old_type_prev old_type_cur
        = (old_type_prev, old_type_cur)
      ∧ newTransLookupInput is_first new_type_prev new_type_cur
        = (new_type_prev, new_type_cur)) := by
  constructor <;> rintro rfl <;>
    simp [oldTransLookupInput, newTransLookupInput]

/-- C6 witness: the masked and unmasked lookup tuples at concrete type
values over `ZMod 13`. -/
theorem c6_border_masked_lookups_witness :
    ((1 : ZMod 13) = 1 →
      oldTransLookupInput (1 : ZMod 13) 2 3 = (0, 0)
      ∧ newTransLookupInput (1 : ZMod 13) 4 2 = (0, 0))
    ∧ ((1 : ZMod 13) = 0 →
      oldTransLookupInput (1 : ZMod 13) 2 3 = (2, 3)
      ∧ newTransLookupInput (1 : ZMod 13) 4 2 = (4, 2)) :=
  c6_border_masked_lookups (ZMod 13) 1 2 3 4 2

/-- C8: the tail of `MptCircuitConfig::assign` panics whenever the
assigned row count exceeds the caller-supplied budget `n_rows`, and
otherwise fills exactly the remaining offsets
`1 + n_assigned_rows, ..., n_rows - 1` with padding rows. -/
theorem c8_row_budget (n_assigned_rows n_rows : Nat) :
    (n_rows < n_assigned_rows →
      mptAssignTail n_assigned_rows n_rows = AssignTail.panic)
    ∧ (n_assigned_rows ≤ n_rows →
      mptAssignTail n_assigned_rows n_rows
        = AssignTail.ok
            (List.range' (1 + n_assigned_rows) (n_rows - (1 + n_assigned_rows)))
      ∧ ∀ j, (j ∈ List.range' (1 + n_assigned_rows)
                (n_rows - (1 + n_assigned_rows))
              ↔ 1 + n_assigned_rows ≤ j ∧ j < n_rows)) := by
  constructor
  · intro h
    simp only [mptAssignTail, if_neg (by omega : ¬ n_assigned_rows ≤ n_rows)]
  · intro h
    refine ⟨by simp only [mptAssignTail, if_pos h], fun j => ?_⟩
    rw [List.mem_range'_1]
    omega

/-- C8 witness: a batch of 5 assigned rows overflows a 3-row budget,
and a batch of 2 assigned rows under a 6-row budget pads offsets 3..5. -/
theorem c8_row_budget_witness :
    ((3 < 5 → mptAssignTail 5 3 = AssignTail.panic)
      ∧ (5 ≤ 3 → mptAssignTail 5 3
          = AssignTail.ok (List.range' (1 + 5) (3 - (1 + 5)))
        ∧ ∀ j, (j ∈ List.range' (1 + 5) (3 - (1 + 5)) ↔ 1 + 5 ≤ j ∧ j < 3)))
    ∧ ((6 < 2 → mptAssignTail 2 6 = AssignTail.panic)
      ∧ (2 ≤ 6 → mptAssignTail 2 6
          = AssignTail.ok (List.range' (1 + 2) (6 - (1 + 2)))
        ∧ ∀ j, (j ∈ List.range' (1 + 2) (6 - (1 + 2)) ↔ 1 + 2 ≤ j ∧ j < 6))) :=
  ⟨c8_row_budget 5 3, c8_row_budget 2 6⟩

/-- C9: `MPTOpChip::fill_heading` writes exactly five cells: zero into
`key_aux` and `depth_aux` at row 0 (under the swapped labels
"depth padding" and "key padding" respectively), the supplied starting
hash into `root_aux` at row 0, one into `is_first` at row 0, and one
into `is_first` at row 1, the last being the only constant-pinned
write. -/
theorem c9_fill_heading (F : Type) [Field F] (old_hash : F) :
    (fillHeading old_hash).map (fun w => (w.col, w.row))
      = [(AuxCol.keyAux, 0), (AuxCol.depthAux, 0), (AuxCol.rootAux, 0),
         (AuxCol.isFirst, 0), (AuxCol.isFirst, 1)]
    ∧ regionValue (fillHeading old_hash) AuxCol.keyAux 0 = some 0
    ∧ regionValue (fillHeading old_hash) AuxCol.depthAux 0 = some 0
    ∧ regionValue (fillHeading old_hash) AuxCol.rootAux 0 = some old_hash
    ∧ regionValue (fillHeading old_hash) AuxCol.isFirst 0 = some 1
    ∧ regionValue (fillHeading old_hash) AuxCol.isFirst 1 = some 1
    ∧ ((fillHeading old_hash).filter (fun w => w.pinned)).map
        (fun w => (w.col, w.row)) = [(AuxCol.isFirst, 1)]
    ∧ ((fillHeading old_hash).filter
        (fun w => w.label == "depth padding")).map (fun w => w.col)
        = [AuxCol.keyAux]
    ∧ ((fillHeading old_hash).filter
        (fun w => w.label == "key padding")).map (fun w => w.col)
        = [AuxCol.depthAux] := by
  refine ⟨rfl, rfl, rfl, rfl, rfl, rfl, rfl, rfl, rfl⟩

/-- C9 witness: the head-row writes at starting hash `7` over
`ZMod 13`. -/
theorem c9_fill_heading_witness :
    (fillHeading (7 : ZMod 13)).map (fun w => (w.col, w.row))
      = [(AuxCol.keyAux, 0), (AuxCol.depthAux, 0), (AuxCol.rootAux, 0),
         (AuxCol.isFirst, 0), (AuxCol.isFirst, 1)]
    ∧ regionValue (fillHeading (7 : ZMod 13)) AuxCol.keyAux 0 = some 0
    ∧ regionValue (fillHeading (7 : ZMod 13)) AuxCol.depthAux 0 = some 0
    ∧ regionValue (fillHeading (7 : ZMod 13)) AuxCol.rootAux 0 = some 7
    ∧ regionValue (fillHeading (7 : ZMod 13)) AuxCol.isFirst 0 = some 1
    ∧ regionValue (fillHeading (7 : ZMod 13)) AuxCol.isFirst 1 = some 1
    ∧ ((fillHeading (7 : ZMod 13)).filter (fun w => w.pinned)).map
        (fun w => (w.col, w.row)) = [(AuxCol.isFirst, 1)]
    ∧ ((fillHeading (7 : ZMod 13)).filter
        (fun w => w.label == "depth padding")).map (fun w => w.col)
        = [AuxCol.keyAux]
    ∧ ((fillHeading (7 : ZMod 13)).filter
        (fun w => w.label == "key padding")).map (fun w => w.col)
        = [AuxCol.depthAux] :=
  c9_fill_heading (ZMod 13) 7

/-! ### Root continuity across a batch (claim C5) -/

/-- The number of boundary gates of a batch. -/
theorem boundaryGates_length {F : Type} [Field F] (olds news : List F) :
    (boundaryGates olds news).length = min (olds.length - 1) news.length := by
  simp [boundaryGates, List.length_zip, List.length_tail]

/-- The boundary gate at index `i` is the difference between operation
`i+1`'s old root and operation `i`'s new root. -/
theorem boundaryGates_getD {F : Type} [Field F] (olds news : List F) (i : Nat)
    (hi : i < (boundaryGates olds news).length) :
    (boundaryGates olds news).getD i 0
      = olds.getD (i + 1) 0 - news.getD i 0 := by
  rw [boundaryGates_length] at hi
  have h2 : i < news.length := by omega
  have h3 : i + 1 < olds.length := by omega
  rw [List.getD_eq_getElem _ _ (by rw [boundaryGates_length]; omega),
    List.getD_eq_getElem _ _ h3, List.getD_eq_getElem _ _ h2]
  simp [boundaryGates, List.getElem_zip, List.getElem_tail, opContinueGate]

/-- C5: the "op continue" gate `sel * is_first * (old_hash -
root_aux_prev)` vanishes on a selector-active boundary row exactly when
the row's `old_hash` equals the previous row's `root_aux`; for a batch
whose operations chain (each old root equals the previous new root)
every boundary gate vanishes, and replacing any intermediate old root
by a value different from the previous operation's new root makes
exactly that boundary's gate nonzero. -/
theorem c5_op_continue (F : Type) [Field F] :
    (∀ sel is_first old_hash root_aux_prev : F, sel = 1 → is_first = 1 →
      (opContinueGate sel is_first old_hash root_aux_prev = 0
        ↔ old_hash = root_aux_prev))
    ∧ (∀ olds news : List F, olds.length = news.length →
        (∀ i < olds.length - 1, olds.getD (i + 1) 0 = news.getD i 0) →
        (∀ i < (boundaryGates olds news).length,
          (boundaryGates olds news).getD i 0 = 0)
        ∧ ∀ j x, j + 1 < olds.length → x ≠ news.getD j 0 →
            (boundaryGates (olds.set (j + 1) x) news).getD j 0 ≠ 0
            ∧ ∀ i < (boundaryGates (olds.set (j + 1) x) news).length,
                i ≠ j → (boundaryGates (olds.set (j + 1) x) news).getD i 0
                          = 0) := by
  constructor
  · intro sel is_first old_hash root_aux_prev hsel hif
    subst hsel; subst hif
    constructor
    · intro h
      simp only [opContinueGate, one_mul] at h
      exact sub_eq_zero.mp h
    · rintro rfl
      simp [opContinueGate]
  · intro olds news hlen hchain
    constructor
    · intro i hi
      rw [boundaryGates_getD olds news i hi]
      rw [boundaryGates_length] at hi
      rw [hchain i (by omega)]
      exact sub_self _
    · intro j x hj hx
      have hsetlen : (olds.set (j + 1) x).length = olds.length :=
        List.length_set olds (j + 1) x
      have hglen : (boundaryGates (olds.set (j + 1) x) news).length
          = min (olds.length - 1) news.length := by
        rw [boundaryGates_length, hsetlen]
      constructor
      · rw [boundaryGates_getD _ _ j (by rw [hglen]; omega)]
        have : (olds.set (j + 1) x).getD (j + 1) 0 = x := by
          rw [List.getD_eq_getElem _ _ (by rw [hsetlen]; omega),
            List.getElem_set, if_pos rfl]
        rw [this]
        exact sub_ne_zero.mpr hx
      · intro i hi hne
        rw [boundaryGates_getD _ _ i hi]
        rw [hglen] at hi
        have : (olds.set (j + 1) x).getD (i + 1) 0 = olds.getD (i + 1) 0 := by
          rw [List.getD_eq_getElem _ _ (by rw [hsetlen]; omega),
            List.getElem_set,
            if_neg (by omega), List.getD_eq_getElem _ _ (by omega)]
        rw [this, hchain i (by omega)]
        exact sub_self _

/-- C5 witness: a chained two-operation batch over `ZMod 13` with roots
`5 → 7 → 9`: the single boundary gate vanishes, and replacing the
second operation's old root by `3 ≠ 7` makes it nonzero; the pointwise
characterization at a concrete boundary row. -/
theorem c5_op_continue_witness :
    (opContinueGate (1 : ZMod 13) 1 4 4 = 0 ↔ (4 : ZMod 13) = 4)
    ∧ (boundaryGates [(5 : ZMod 13), 7] [7, 9]).getD 0 0 = 0
    ∧ (boundaryGates ([(5 : ZMod 13), 7].set 1 3) [7, 9]).getD 0 0 ≠ 0 := by
  refine ⟨(c5_op_continue (ZMod 13)).1 1 1 4 4 rfl rfl, ?_, ?_⟩
  · exact ((c5_op_continue (ZMod 13)).2 [5, 7] [7, 9] rfl (by decide)).1 0
      (by decide)
  · exact (((c5_op_continue (ZMod 13)).2 [5, 7] [7, 9] rfl
      (by decide)).2 0 3 (by decide) (by decide)).1

/-! ### Length handling of `fill_aux` (claims C7, C10) -/

/-- Each loop iteration of `fill_aux` writes exactly one `key_aux`
cell, so the number of key writes is the length of the zipped input. -/
theorem keyWrites_fillAuxLoop_length {F : Type} [Field F]
    (l : List ((HashType × F) × F)) :
    ∀ (index : Nat) (r d a : F) (b : Bool),
      (keyWrites (fillAuxLoop index r d a b l)).length = l.length := by
  induction l with
  | nil => intro index r d a b; rfl
  | cons x rest ih =>
    intro index r d a b
    obtain ⟨⟨t, hv⟩, p⟩ := x
    simp only [fillAuxLoop, keyWrites, List.filterMap_cons]
    simp only [keyWrites] at ih
    simp [ih]

/-- C7 counterexample: a `fill_aux` call whose three vectors do not all
have equal length (the path vector is empty while the other two have
one entry) completes without a panic — it returns `hash.len() = 1`
after writing nothing, because the iterator zip silently truncates to
the shortest input. -/
theorem c7_counterexample :
    ([] : List (ZMod 13)).length ≠ [(1 : ZMod 13)].length
    ∧ fillAux 1 [HashType.Leaf] [(1 : ZMod 13)] ([] : List (ZMod 13))
        = FillResult.ok [] 1 := by
  constructor
  · decide
  · rfl

/-- C7 amended: `fill_aux` panics exactly when `new_hash_types` and
`hash` differ in length or `hash` is empty; a path vector of a
different length is not detected — the loop zips the three vectors,
truncating to the shortest, and the call completes returning
`hash.len()`. -/
theorem c7_length_mismatch (F : Type) [Field F] (offset : Nat)
    (new_hash_types : List HashType) (hash path : List F) :
    ((fillAux offset new_hash_types hash path).isPanic = true
      ↔ (new_hash_types.length ≠ hash.length ∨ hash.length = 0))
    ∧ (new_hash_types.length = hash.length → hash.length ≠ 0 →
        fillAux offset new_hash_types hash path
          = FillResult.ok (fillAuxWrites offset new_hash_types hash path)
              hash.length
        ∧ (keyWrites (fillAuxWrites offset new_hash_types hash path)).length
            = min (min new_hash_types.length hash.length) path.length) := by
  constructor
  · by_cases h1 : new_hash_types.length = hash.length
    · by_cases h2 : hash.length = 0
      · simp [fillAux, h1, h2, FillResult.isPanic]
      · simp [fillAux, h1, h2, FillResult.isPanic]
    · simp [fillAux, h1, FillResult.isPanic]
  · intro h1 h2
    refine ⟨by simp [fillAux, h1, h2], ?_⟩
    rw [fillAuxWrites, keyWrites_fillAuxLoop_length, List.length_zip,
      List.length_zip]

/-- C7 amended witness: with three one-entry vectors (equal lengths)
the call completes with one key write; the panic characterization at
that input. -/
theorem c7_length_mismatch_witness :
    ((fillAux 1 [HashType.Leaf] [(6 : ZMod 13)] [4]).isPanic = true
      ↔ ([HashType.Leaf].length ≠ [(6 : ZMod 13)].length
          ∨ [(6 : ZMod 13)].length = 0))
    ∧ ([HashType.Leaf].length = [(6 : ZMod 13)].length
        → [(6 : ZMod 13)].length ≠ 0 →
        fillAux 1 [HashType.Leaf] [(6 : ZMod 13)] [4]
          = FillResult.ok (fillAuxWrites 1 [HashType.Leaf] [(6 : ZMod 13)] [4])
              [(6 : ZMod 13)].length
        ∧ (keyWrites (fillAuxWrites 1 [HashType.Leaf] [(6 : ZMod 13)] [4])).length
            = min (min [HashType.Leaf].length [(6 : ZMod 13)].length)
                [(4 : ZMod 13)].length) :=
  c7_length_mismatch (ZMod 13) 1 [HashType.Leaf] [6] [4]

/-- C10 counterexample: calling `fill_aux` with an empty hash vector
but a non-empty type vector panics through the length-equality
assertion `assert_eq!(new_hash_types.len(), hash.len())`, not through
the assertion carrying the "input must not empty" message. -/
theorem c10_counterexample :
    fillAux 1 [HashType.Leaf] ([] : List (ZMod 13)) ([] : List (ZMod 13))
      = FillResult.panic PanicReason.lenMismatch
    ∧ PanicReason.lenMismatch ≠ PanicReason.emptyInput := by
  constructor
  · rfl
  · decide

/-- C10 amended: every `fill_aux` call with an empty hash vector panics
before any cell is assigned (the result carries no writes); the panic
comes from the `assert!(hash.len() > 0, "input must not empty")` line
exactly when the type vector is also empty, and otherwise from the
preceding length-equality assertion.  A non-empty hash vector is a
precondition of every successful call. -/
theorem c10_empty_hash (F : Type) [Field F] (offset : Nat)
    (new_hash_types : List HashType) (path : List F) :
    (fillAux offset new_hash_types ([] : List F) path).isPanic = true
    ∧ (new_hash_types = [] →
        fillAux offset new_hash_types ([] : List F) path
          = FillResult.panic PanicReason.emptyInput)
    ∧ (new_hash_types ≠ [] →
        fillAux offset new_hash_types ([] : List F) path
          = FillResult.panic PanicReason.lenMismatch) := by
  cases new_hash_types with
  | nil => exact ⟨rfl, fun _ => rfl, fun h => absurd rfl h⟩
  | cons t ts =>
    have hne : (t :: ts).length ≠ ([] : List F).length := by simp
    have hfa : fillAux offset (t :: ts) ([] : List F) path
        = FillResult.panic PanicReason.lenMismatch := by
      simp [fillAux, hne]
    exact ⟨by rw [hfa]; rfl, fun h => by simp at h, fun _ => hfa⟩

/-- C10 amended witness: the empty-hash behaviour at the concrete calls
with an empty and with a one-entry type vector. -/
theorem c10_empty_hash_witness :
    ((fillAux 2 [] ([] : List (ZMod 13)) []).isPanic = true
      ∧ (([] : List HashType) = [] →
          fillAux 2 [] ([] : List (ZMod 13)) []
            = FillResult.panic PanicReason.emptyInput)
      ∧ (([] : List HashType) ≠ [] →
          fillAux 2 [] ([] : List (ZMod 13)) []
            = FillResult.panic PanicReason.lenMismatch))
    ∧ ((fillAux 2 [HashType.Middle] ([] : List (ZMod 13)) []).isPanic = true
      ∧ ([HashType.Middle] = [] →
          fillAux 2 [HashType.Middle] ([] : List (ZMod 13)) []
            = FillResult.panic PanicReason.emptyInput)
      ∧ ([HashType.Middle] ≠ [] →
          fillAux 2 [HashType.Middle] ([] : List (ZMod 13)) []
            = FillResult.panic PanicReason.lenMismatch)) :=
  ⟨c10_empty_hash (ZMod 13) 2 [] [], c10_empty_hash (ZMod 13) 2 [HashType.Middle] []⟩

/-! ### Key reconstruction (claim C1) -/

/-- One loop iteration of `fill_aux` contributes one `key_aux` write
holding the updated accumulator, and continues with the updated
state. -/
theorem keyWrites_fillAuxLoop_cons {F : Type} [Field F]
    (index : Nat) (r d a : F) (b : Bool) (t : HashType) (hv p : F)
    (rest : List ((HashType × F) × F)) :
    keyWrites (fillAuxLoop index r d a b (((t, hv), p) :: rest))
      = (index, p * (if b then 1 else 2 * d) + (if b then 0 else a))
          :: keyWrites (fillAuxLoop (index + 1) (if b then hv else r)
              (if b then 1 else 2 * d)
              (p * (if b then 1 else 2 * d) + (if b then 0 else a))
              (decide (t = HashType.Leaf)) rest) := by
  cases b <;> rfl

/-- Closed form of the `acc_key` recurrence while a run continues: with
`is_first_col = false`, accumulator `a` and current depth `d` entering
the loop, and no Leaf-typed row before the last remaining row (so no
reset occurs), the `key_aux` cell written at the `j`-th remaining row
holds `a + ∑ path_i * 2^(i+1) * d`. -/
theorem fillAuxLoop_keyWrites_false {F : Type} [Field F]
    (l : List ((HashType × F) × F)) :
    ∀ (index : Nat) (r d a : F),
      (∀ x ∈ l.dropLast, x.1.1 ≠ HashType.Leaf) →
      keyWrites (fillAuxLoop index r d a false l)
        = (List.range l.length).map
            (fun j => (index + j,
              a + ∑ i ∈ Finset.range (j + 1),
                (l.getD i (zDefault F)).2 * (2 ^ (i + 1) * d))) := by
  induction l with
  | nil => intro index r d a _; rfl
  | cons x rest ih =>
    intro index r d a h
    obtain ⟨⟨t, hv⟩, p⟩ := x
    rw [keyWrites_fillAuxLoop_cons]
    simp only [Bool.false_eq_true, if_false]
    cases rest with
    | nil =>
      rw [show (fillAuxLoop (index + 1) r (2 * d) (p * (2 * d) + a)
            (decide (t = HashType.Leaf)) []) = [] from rfl]
      rw [show (keyWrites ([] : List (RegionWrite F))) = [] from rfl]
      rw [show ([((t, hv), p)].length) = 1 from rfl]
      rw [show (List.range 1) = [0] from rfl]
      simp only [List.map_cons, List.map_nil]
      refine congrArg₂ _ ?_ rfl
      refine congrArg₂ _ (by omega) ?_
      rw [Finset.sum_range_one]
      simp only [List.getD_cons_zero, zDefault]
      ring
    | cons y rest2 =>
      have ht : t ≠ HashType.Leaf := by
        have hx : ((t, hv), p) ∈ (((t, hv), p) :: y :: rest2).dropLast := by
          rw [List.dropLast_cons₂]
          exact List.mem_cons_self _ _
        exact h _ hx
      have hrest : ∀ z ∈ (y :: rest2).dropLast, z.1.1 ≠ HashType.Leaf := by
        intro z hz
        apply h
        rw [List.dropLast_cons₂]
        exact List.mem_cons_of_mem _ hz
      rw [decide_eq_false ht,
        ih (index + 1) r (2 * d) (p * (2 * d) + a) hrest]
      rw [show ((((t, hv), p) :: y :: rest2).length = (y :: rest2).length + 1)
          from rfl, List.range_succ_eq_map]
      simp only [List.map_cons, List.map_map]
      refine congrArg₂ _ ?_ ?_
      · refine congrArg₂ _ (by omega) ?_
        rw [Finset.sum_range_one]
        simp only [List.getD_cons_zero, zDefault]
        ring
      · refine List.map_congr_left ?_
        intro j _
        simp only [Function.comp, Nat.succ_eq_add_one]
        refine congrArg₂ _ (by omega) ?_
        conv_rhs => rw [Finset.sum_range_succ']
        have hshift : ∑ i ∈ Finset.range (j + 1),
            ((((t, hv), p) :: y :: rest2).getD (i + 1) (zDefault F)).2
              * (2 ^ (i + 1 + 1) * d)
            = ∑ i ∈ Finset.range (j + 1),
                ((y :: rest2).getD i (zDefault F)).2
                  * (2 ^ (i + 1) * (2 * d)) := by
          refine Finset.sum_congr rfl ?_
          intro i _
          rw [List.getD_cons_succ]
          ring
        rw [hshift]
        simp only [List.getD_cons_zero, zDefault]
        ring

/-- Closed form of the `acc_key` recurrence for a fresh run: with
`is_first_col = true` entering the loop and no Leaf-typed row before
the last one, the `key_aux` cell written at the `j`-th row holds the
partial weighted sum of path values times doubling depths. -/
theorem fillAuxLoop_keyWrites_true {F : Type} [Field F]
    (l : List ((HashType × F) × F)) (index : Nat) (r d a : F)
    (hne : l ≠ [])
    (hrun : ∀ x ∈ l.dropLast, x.1.1 ≠ HashType.Leaf) :
    keyWrites (fillAuxLoop index r d a true l)
      = (List.range l.length).map
          (fun j => (index + j,
            ∑ i ∈ Finset.range (j + 1),
              (l.getD i (zDefault F)).2 * 2 ^ i)) := by
  cases l with
  | nil => exact absurd rfl hne
  | cons x rest =>
    obtain ⟨⟨t, hv⟩, p⟩ := x
    rw [keyWrites_fillAuxLoop_cons]
    simp only [if_true]
    cases rest with
    | nil =>
      rw [show (fillAuxLoop (index + 1) hv 1 (p * 1 + 0)
            (decide (t = HashType.Leaf)) []) = [] from rfl]
      rw [show (keyWrites ([] : List (RegionWrite F))) = [] from rfl]
      rw [show ([((t, hv), p)].length) = 1 from rfl]
      rw [show (List.range 1) = [0] from rfl]
      simp only [List.map_cons, List.map_nil]
      refine congrArg₂ _ ?_ rfl
      refine congrArg₂ _ (by omega) ?_
      rw [Finset.sum_range_one]
      simp only [List.getD_cons_zero, zDefault]
      ring
    | cons y rest2 =>
      have ht : t ≠ HashType.Leaf := by
        have hx : ((t, hv), p) ∈ (((t, hv), p) :: y :: rest2).dropLast := by
          rw [List.dropLast_cons₂]
          exact List.mem_cons_self _ _
        exact hrun _ hx
      have hrest : ∀ z ∈ (y :: rest2).dropLast, z.1.1 ≠ HashType.Leaf := by
        intro z hz
        apply hrun
        rw [List.dropLast_cons₂]
        exact List.mem_cons_of_mem _ hz
      rw [decide_eq_false ht,
        fillAuxLoop_keyWrites_false (y :: rest2) (index + 1) hv 1
          (p * 1 + 0) hrest]
      rw [show ((((t, hv), p) :: y :: rest2).length = (y :: rest2).length + 1)
          from rfl, List.range_succ_eq_map]
      simp only [List.map_cons, List.map_map]
      refine congrArg₂ _ ?_ ?_
      · refine congrArg₂ _ (by omega) ?_
        rw [Finset.sum_range_one]
        simp only [List.getD_cons_zero, zDefault]
        ring
      · refine List.map_congr_left ?_
        intro j _
        simp only [Function.comp, Nat.succ_eq_add_one]
        refine congrArg₂ _ (by omega) ?_
        conv_rhs => rw [Finset.sum_range_succ']
        have hshift : ∑ i ∈ Finset.range (j + 1),
            ((((t, hv), p) :: y :: rest2).getD (i + 1) (zDefault F)).2
              * 2 ^ (i + 1)
            = ∑ i ∈ Finset.range (j + 1),
                ((y :: rest2).getD i (zDefault F)).2
                  * (2 ^ (i + 1) * 1) := by
          refine Finset.sum_congr rfl ?_
          intro i _
          rw [List.getD_cons_succ]
          ring
        rw [hshift]
        simp only [List.getD_cons_zero, zDefault]
        ring

/-- Length of the zipped `((hash_type, hash), path)` input of
`fill_aux` when the three vectors have equal length. -/
theorem zip3_length {F : Type} [Field F]
    (types : List HashType) (hash path : List F)
    (hlt : types.length = path.length) (hlh : hash.length = path.length) :
    ((types.zip hash).zip path).length = path.length := by
  rw [List.length_zip, List.length_zip, hlt, hlh, Nat.min_self, Nat.min_self]

/-- The path component of the zipped `fill_aux` input. -/
theorem zip3_getD_path {F : Type} [Field F]
    (types : List HashType) (hash path : List F)
    (hlt : types.length = path.length) (hlh : hash.length = path.length)
    (i : Nat) (hi : i < path.length) :
    (((types.zip hash).zip path).getD i (zDefault F)).2 = path.getD i 0 := by
  have h1 : i < ((types.zip hash).zip path).length := by
    rw [zip3_length types hash path hlt hlh]; exact hi
  rw [List.getD_eq_getElem _ _ h1, List.getD_eq_getElem _ _ hi,
    List.getElem_zip]

/-- The hash-type component of the zipped `fill_aux` input. -/
theorem zip3_getD_type {F : Type} [Field F]
    (types : List HashType) (hash path : List F)
    (hlt : types.length = path.length) (hlh : hash.length = path.length)
    (i : Nat) (hi : i < path.length) :
    (((types.zip hash).zip path).getD i (zDefault F)).1.1
      = types.getD i HashType.Empty := by
  have h1 : i < ((types.zip hash).zip path).length := by
    rw [zip3_length types hash path hlt hlh]; exact hi
  have h2 : i < types.length := by omega
  rw [List.getD_eq_getElem _ _ h1, List.getD_eq_getElem _ _ h2,
    List.getElem_zip, List.getElem_zip]

/-- C1: a `fill_aux` call beginning a fresh run (`is_first_col` starts
true) over equal-length vectors of `k+1` rows, with boolean path values
`b0..bk` and no Leaf-typed row before the last (so no mid-run reset),
completes and writes, at the operation's last row `offset + k`, the
`key_aux` value `∑ bi * 2^i` — the depth-doubling accumulation
recurrence has this closed form. -/
theorem c1_key_reconstruction (F : Type) [Field F] (offset : Nat)
    (types : List HashType) (hash path : List F)
    (hlt : types.length = path.length) (hlh : hash.length = path.length)
    (hpos : 0 < path.length)
    (hbits : ∀ b ∈ path, b = 0 ∨ b = 1)
    (hrun : ∀ i < path.length - 1,
      types.getD i HashType.Empty ≠ HashType.Leaf) :
    fillAux offset types hash path
      = FillResult.ok (fillAuxWrites offset types hash path) path.length
    ∧ (keyWrites (fillAuxWrites offset types hash path)).getLast?
        = some (offset + (path.length - 1),
            ∑ i ∈ Finset.range path.length, path.getD i 0 * 2 ^ i) := by
  have hlen : ((types.zip hash).zip path).length = path.length :=
    zip3_length types hash path hlt hlh
  constructor
  · have h1 : types.length = hash.length := by rw [hlt, hlh]
    have h2 : hash.length ≠ 0 := by omega
    have h3 : ¬ path = [] := by
      intro hnil
      rw [hnil] at hpos
      exact absurd hpos (by simp)
    simp [fillAux, h1, h2, hlh, h3]
  · have hne : (types.zip hash).zip path ≠ [] := by
      intro hnil
      rw [hnil] at hlen
      simp at hlen
      omega
    have hrun2 : ∀ x ∈ ((types.zip hash).zip path).dropLast,
        x.1.1 ≠ HashType.Leaf := by
      intro x hx
      obtain ⟨i, hi, hEq⟩ := List.getElem_of_mem hx
      have hdl : ((types.zip hash).zip path).dropLast.length
          = path.length - 1 := by
        rw [List.length_dropLast, hlen]
      have hi2 : i < path.length - 1 := by omega
      have hgd : (((types.zip hash).zip path).getD i (zDefault F)).1.1
          = types.getD i HashType.Empty :=
        zip3_getD_type types hash path hlt hlh i (by omega)
      rw [List.getD_eq_getElem _ _ (by omega)] at hgd
      rw [← hEq, List.getElem_dropLast, hgd]
      exact hrun i hi2
    rw [fillAuxWrites,
      fillAuxLoop_keyWrites_true ((types.zip hash).zip path) offset 0 0 0
        hne hrun2,
      List.getLast?_map, hlen]
    have hr : (List.range path.length).getLast? = some (path.length - 1) := by
      cases hp : path.length with
      | zero => omega
      | succ m => rw [List.range_succ]; simp
    rw [hr, Option.map_some']
    refine congrArg _ ?_
    refine congrArg₂ _ rfl ?_
    have hn : path.length - 1 + 1 = path.length := by omega
    rw [hn]
    refine Finset.sum_congr rfl ?_
    intro i hi
    rw [zip3_getD_path types hash path hlt hlh i (Finset.mem_range.mp hi)]

/-- C1 witness: the spec's own example — path bits `[1, 0, 1]` (with
types `[Middle, Middle, Leaf]`) store the key `1*1 + 0*2 + 1*4 = 5` at
the operation's last row. -/
theorem c1_key_reconstruction_witness :
    (fillAux 1 [HashType.Middle, HashType.Middle, HashType.Leaf]
        [(4 : ZMod 13), 5, 6] [1, 0, 1]
      = FillResult.ok (fillAuxWrites 1
          [HashType.Middle, HashType.Middle, HashType.Leaf]
          [(4 : ZMod 13), 5, 6] [1, 0, 1]) 3
    ∧ (keyWrites (fillAuxWrites 1
          [HashType.Middle, HashType.Middle, HashType.Leaf]
          [(4 : ZMod 13), 5, 6] [1, 0, 1])).getLast?
        = some (1 + (3 - 1),
            ∑ i ∈ Finset.range 3, [(1 : ZMod 13), 0, 1].getD i 0 * 2 ^ i))
    ∧ ∑ i ∈ Finset.range 3, [(1 : ZMod 13), 0, 1].getD i 0 * 2 ^ i = 5 :=
  ⟨c1_key_reconstruction (ZMod 13) 1
      [HashType.Middle, HashType.Middle, HashType.Leaf]
      [(4 : ZMod 13), 5, 6] [1, 0, 1] rfl rfl (by decide) (by decide)
      (by decide),
    by decide⟩

end MptOps
